import Mathlib

/-!
Verification of the risk-pipeline core (src/risk_pipeline/pipeline.py).

This file gives a shallow embedding of the core of the risk pipeline:
temporal selection (`pick_latest_with_lookback_and_basis`), imputation
(`impute_with_basis`), normalization (`normalize`), source dispatch
(`source_fetch`) and aggregation / assembly (`run_pipeline`), and proves
the specified properties about it.

Numeric values are modelled by `RVal`: a rational number, positive or
negative infinity, or NaN.  In pandas/numpy, NaN doubles as the missing
marker, so `RVal.nan` is both "NaN" and "missing" here, exactly as in the
source.  The arithmetic on `RVal` follows IEEE float behaviour on the
operations the pipeline uses (NaN propagation, `x/0`, `0/0`, infinities),
with exact rationals in place of finite floats; `np.log1p` is an external
transcendental function and is passed in as a parameter.
-/

inductive RVal where
  | nan : RVal
  | pinf : RVal
  | ninf : RVal
  | fin : ℚ → RVal
deriving DecidableEq, Repr

namespace RVal

/-- `pd.isna` / missingness: true exactly on NaN (infinities are not missing). -/
def isNa : RVal → Bool
  | nan => true
  | _ => false

/-- Float negation. -/
def neg : RVal → RVal
  | nan => nan
  | pinf => ninf
  | ninf => pinf
  | fin q => fin (-q)

/-- Float addition (NaN propagates, `+inf + -inf = NaN`). -/
def add : RVal → RVal → RVal
  | nan, _ => nan
  | _, nan => nan
  | pinf, ninf => nan
  | ninf, pinf => nan
  | pinf, _ => pinf
  | _, pinf => pinf
  | ninf, _ => ninf
  | _, ninf => ninf
  | fin a, fin b => fin (a + b)

/-- Float subtraction. -/
def sub (a b : RVal) : RVal := add a (neg b)

/-- Float multiplication (`inf * 0 = NaN`, signs as usual). -/
def mul : RVal → RVal → RVal
  | nan, _ => nan
  | _, nan => nan
  | pinf, pinf => pinf
  | pinf, ninf => ninf
  | ninf, pinf => ninf
  | ninf, ninf => pinf
  | pinf, fin b => if b = 0 then nan else if 0 < b then pinf else ninf
  | fin a, pinf => if a = 0 then nan else if 0 < a then pinf else ninf
  | ninf, fin b => if b = 0 then nan else if 0 < b then ninf else pinf
  | fin a, ninf => if a = 0 then nan else if 0 < a then ninf else pinf
  | fin a, fin b => fin (a * b)

/-- Float division (`x/0` is a signed infinity for `x ≠ 0`, `0/0 = NaN`,
`inf/inf = NaN`, `x/inf = 0`; zero is treated as `+0`). -/
def div : RVal → RVal → RVal
  | nan, _ => nan
  | _, nan => nan
  | pinf, pinf => nan
  | pinf, ninf => nan
  | ninf, pinf => nan
  | ninf, ninf => nan
  | fin _, pinf => fin 0
  | fin _, ninf => fin 0
  | pinf, fin b => if 0 ≤ b then pinf else ninf
  | ninf, fin b => if 0 ≤ b then ninf else pinf
  | fin a, fin b =>
      if b = 0 then (if a = 0 then nan else if 0 < a then pinf else ninf)
      else fin (a / b)

/-- `np.clip(x, lo, hi)` = `min(max(x, lo), hi)`; NaN stays NaN. -/
def clip (x : RVal) (lo hi : ℚ) : RVal :=
  match x with
  | nan => nan
  | pinf => fin hi
  | ninf => fin lo
  | fin q => fin (min hi (max lo q))

/-- `Series.clip(lower=0)`: clamp below only; NaN stays NaN. -/
def clipLower0 : RVal → RVal
  | nan => nan
  | pinf => pinf
  | ninf => fin 0
  | fin q => fin (max 0 q)

/-- Float total comparison used for sorting / max / min of non-NaN values:
`-inf < finite < +inf`.  (NaN values are filtered out before use.) -/
def leB : RVal → RVal → Bool
  | nan, _ => true
  | _, nan => true
  | ninf, _ => true
  | _, ninf => false
  | _, pinf => true
  | pinf, _ => false
  | fin a, fin b => decide (a ≤ b)

/-- Python float `!=` : NaN compares unequal to everything, including itself. -/
def neF : RVal → RVal → Bool
  | nan, _ => true
  | _, nan => true
  | pinf, pinf => false
  | ninf, ninf => false
  | fin a, fin b => decide (a ≠ b)
  | _, _ => true

end RVal

/-- Insert into a `RVal.leB`-sorted list (stable insertion sort step). -/
def insertR (x : RVal) : List RVal → List RVal
  | [] => [x]
  | y :: ys => if RVal.leB x y then x :: y :: ys else y :: insertR x ys

/-- Ascending sort of a list of `RVal` (NaN-free in all uses). -/
def sortR : List RVal → List RVal
  | [] => []
  | x :: xs => insertR x (sortR xs)

/-- The non-NaN elements of a list, in order (`dropna`). -/
def dropNa (xs : List RVal) : List RVal := xs.filter (fun x => ¬ x.isNa)

/-- Number of non-NaN elements (`Series.notna().sum()`). -/
def countNotNa (xs : List RVal) : Nat := (dropNa xs).length

/-- Float sum of a list. -/
def sumR (xs : List RVal) : RVal := xs.foldl RVal.add (RVal.fin 0)

/-- `Series.max()` (pandas: skips NaN; all-NaN gives NaN). -/
def smax (xs : List RVal) : RVal :=
  match dropNa xs with
  | [] => RVal.nan
  | y :: ys => ys.foldl (fun a b => if RVal.leB a b then b else a) y

/-- `Series.min()` (pandas: skips NaN; all-NaN gives NaN). -/
def smin (xs : List RVal) : RVal :=
  match dropNa xs with
  | [] => RVal.nan
  | y :: ys => ys.foldl (fun a b => if RVal.leB b a then b else a) y

/-- `Series.median()` (pandas: skips NaN; mean of the two middle elements for
even length; all-NaN gives NaN). -/
def medianR (xs : List RVal) : RVal :=
  let ys := sortR (dropNa xs)
  let n := ys.length
  if n = 0 then RVal.nan
  else if n % 2 = 1 then ys.getD (n / 2) RVal.nan
  else RVal.div (RVal.add (ys.getD (n / 2 - 1) RVal.nan) (ys.getD (n / 2) RVal.nan))
        (RVal.fin 2)

/-- `np.nanpercentile(xs, p)` with the default linear interpolation:
drop NaNs, sort ascending, interpolate at rank `h = p·(n−1)/100`.
Empty input gives NaN. -/
def pctl (xs : List RVal) (p : ℚ) : RVal :=
  let ys := sortR (dropNa xs)
  let n := ys.length
  if n = 0 then RVal.nan
  else
    let h : ℚ := p * (n - 1) / 100
    let i : Nat := h.floor.toNat
    let g : ℚ := h - (i : ℚ)
    if i + 1 < n then
      RVal.add (ys.getD i RVal.nan)
        (RVal.mul (RVal.fin g) (RVal.sub (ys.getD (i + 1) RVal.nan) (ys.getD i RVal.nan)))
    else ys.getD (n - 1) RVal.nan

/-! ## Data model: raw series rows and the country registry -/

/-- One row of a raw series table (`iso3, year, value`); per the data model,
`value` may be missing (NaN). -/
structure Row where
  iso3 : String
  year : Int
  value : RVal
deriving DecidableEq, Repr

/-- A registry country: `iso3, name, region, incomeLevel` (region/income may be
absent, as for aggregates slipping through the registry filter). -/
structure Country where
  iso3 : String
  name : String
  region : Option String
  incomeLevel : Option String
deriving DecidableEq, Repr

/-! ## Temporal selector: `pick_latest_with_lookback_and_basis` -/

/-- Lexicographic comparison of character lists (the order of `String` `<`,
written out so that it evaluates in the kernel). -/
def charListLt : List Char → List Char → Bool
  | [], [] => false
  | [], _ :: _ => true
  | _ :: _, [] => false
  | c :: cs, d :: ds =>
      if c.val < d.val then true
      else if d.val < c.val then false
      else charListLt cs ds

/-- String `<` as lexicographic comparison of the character data. -/
def strLt (a b : String) : Bool := charListLt a.data b.data

/-- Key order of `df.sort_values(["iso3","year"], ascending=[True,False])`:
iso3 ascending, year descending. -/
def rowKeyLe (a b : Row) : Bool :=
  if a.iso3 = b.iso3 then b.year ≤ a.year else strLt a.iso3 b.iso3

/-- Stable insertion into a `rowKeyLe`-sorted list. -/
def insertRow (x : Row) : List Row → List Row
  | [] => [x]
  | y :: ys => if rowKeyLe x y then x :: y :: ys else y :: insertRow x ys

/-- Stable sort by (iso3 ascending, year descending). -/
def sortRows : List Row → List Row
  | [] => []
  | x :: xs => insertRow x (sortRows xs)

/-- Collapse consecutive duplicates (the distinct iso3 keys of a sorted list,
in ascending order, as produced by `groupby("iso3")`). -/
def dedupStr : List String → List String
  | [] => []
  | [x] => [x]
  | x :: y :: rest => if x = y then dedupStr (y :: rest) else x :: dedupStr (y :: rest)

/-- Maximum observed year of a country's rows (`groupby("iso3")["year"].max()`). -/
def maxYear : List Row → Int
  | [] => 0
  | r :: rest => rest.foldl (fun m s => max m s.year) r.year

/-- `pick_latest_with_lookback_and_basis(df, lookback)`: per iso3, probe years
`y_max, y_max−1, …, y_max−lookback` and select the first year that has a row
(`row.iloc[0]` after the stable sort), tagging `basis = "raw"` for `k = 0` and
`"lookback"` otherwise.  Returns the chosen rows and the per-iso3 basis map. -/
def pick_latest_with_lookback_and_basis (df : List Row) (lookback : Nat) :
    List Row × List (String × String) :=
  if df = [] then ([], [])
  else
    let sorted := sortRows df
    let isos := dedupStr (sorted.map (fun r => r.iso3))
    let picks := isos.filterMap (fun iso =>
      let sub := sorted.filter (fun r => r.iso3 = iso)
      let yMax := maxYear sub
      (List.range (lookback + 1)).findSome? (fun k =>
        (sub.find? (fun r => r.year = yMax - (k : Int))).map
          (fun r => (r, if k = 0 then "raw" else "lookback"))))
    (picks.map (fun p => p.1), picks.map (fun p => (p.1.iso3, p.2)))

/-! ## Imputation engine: `impute_with_basis` -/

/-- The per-country state carried by `impute_with_basis`: the pair of parallel
pandas Series (values, basis) over the same index, entry-wise. -/
structure VB where
  iso3 : String
  value : RVal
  basis : Option String
deriving DecidableEq, Repr

/-- Initial basis assignment: copy `basis_init` onto the index
(`basis.loc[iso] = b` for each `iso` present in the index). -/
def initBasis (basisInit : List (String × String)) (iso : String) : Option String :=
  (basisInit.find? (fun p => p.1 = iso)).map (fun p => p.2)

/-- The region median available to a target country:
`df_values.join(meta[["region"]], on="iso3").groupby("region")["value"].median()
.get(r, nan)` where `r` is the country's region (None / absent iso3 gives NaN;
an absent or all-NaN group gives NaN).  Computed from the anchor rows
`df_values` only. -/
def regionMedFor (dfValues : List Row) (countries : List Country) (iso : String) : RVal :=
  match (countries.find? (fun c => c.iso3 = iso)).bind (fun c => c.region) with
  | none => RVal.nan
  | some r =>
      medianR ((dfValues.filter (fun row =>
        ((countries.find? (fun c => c.iso3 = row.iso3)).bind (fun c => c.region)) = some r)).map
          (fun row => row.value))

/-- Income-level analogue of `regionMedFor`, keyed by `incomeLevel`. -/
def incomeMedFor (dfValues : List Row) (countries : List Country) (iso : String) : RVal :=
  match (countries.find? (fun c => c.iso3 = iso)).bind (fun c => c.incomeLevel) with
  | none => RVal.nan
  | some g =>
      medianR ((dfValues.filter (fun row =>
        ((countries.find? (fun c => c.iso3 = row.iso3)).bind (fun c => c.incomeLevel)) = some g)).map
          (fun row => row.value))

/-- The global median of the anchor set
(`df_values["value"].median()` guarded by `df_values.empty`). -/
def globalMed (dfValues : List Row) : RVal :=
  if dfValues = [] then RVal.nan else medianR (dfValues.map (fun row => row.value))

/-- One fallback level of `impute_with_basis`: assign the level's median to
every still-missing country for which that median is non-NaN, tagging the
basis with the level's name.  Unknown level strings do nothing. -/
def applyLevel (level : String) (dfValues : List Row) (countries : List Country)
    (st : List VB) : List VB :=
  if level = "region" then
    st.map (fun e =>
      if e.value.isNa then
        let v := regionMedFor dfValues countries e.iso3
        if v.isNa then e else { e with value := v, basis := some "region" }
      else e)
  else if level = "income" then
    st.map (fun e =>
      if e.value.isNa then
        let v := incomeMedFor dfValues countries e.iso3
        if v.isNa then e else { e with value := v, basis := some "income" }
      else e)
  else if level = "global" then
    let v := globalMed dfValues
    st.map (fun e =>
      if e.value.isNa then
        (if v.isNa then e else { e with value := v, basis := some "global" })
      else e)
  else st

/-- The level loop of `impute_with_basis`, including the early
`if not mask.any(): break`. -/
def imputeLevels (dfValues : List Row) (countries : List Country) :
    List String → List VB → List VB
  | [], st => st
  | l :: rest, st =>
      if st.all (fun e => ¬ e.value.isNa) then st
      else imputeLevels dfValues countries rest (applyLevel l dfValues countries st)

/-- `impute_with_basis(series, df_values, countries, order, basis_init)`:
copy the initial basis tags onto the index, then run the fallback levels in
`order`.  Returns the (values, basis) pair entry-wise. -/
def impute_with_basis (series : List (String × RVal)) (dfValues : List Row)
    (countries : List Country) (order : List String)
    (basisInit : List (String × String)) : List VB :=
  imputeLevels dfValues countries order
    (series.map (fun p => ⟨p.1, p.2, initBasis basisInit p.1⟩))

/-! ## Normalizer: `normalize` -/

/-- A normalization spec, the (merged) dict handed to `normalize`.  Fields
mirror the keys the function reads: `spec.get("method","percentile_clamp")`,
`spec.get("higher_is_riskier", True)`, truthy `invert_sign` / `invert`,
optional `min`, `max`, `cap`, and `p_low` / `p_high` (defaults 5 / 95). -/
structure NormSpec where
  method : String := "percentile_clamp"
  higher_is_riskier : Bool := true
  invert_sign : Bool := false
  invert : Bool := false
  min? : Option ℚ := none
  max? : Option ℚ := none
  cap? : Option ℚ := none
  p_low : ℚ := 5
  p_high : ℚ := 95
deriving DecidableEq, Repr

/-- The clamp bounds of the default (`percentile_clamp`) branch: the
`p_low`/`p_high` nan-percentiles when at least 4 values are present, the
observed min/max otherwise. -/
def clampBounds (vals : List RVal) (spec : NormSpec) : RVal × RVal :=
  if 4 ≤ countNotNa vals then (pctl vals spec.p_low, pctl vals spec.p_high)
  else (smin vals, smax vals)

/-- The default cap of the `log_cap` branch:
`np.nanpercentile(v.dropna(), 95) if v.notna().any() else 1.0`. -/
def logCapDefault (vals : List RVal) : RVal :=
  if 0 < countNotNa vals then pctl (dropNa vals) 95 else RVal.fin 1

/-- The pre-scaling modifiers of `normalize`: `invert_sign` negates, then
`invert` reflects as `v.max() + v.min() - v` (pandas max/min skip NaN). -/
def normPre (values : List (String × RVal)) (spec : NormSpec) : List (String × RVal) :=
  let v1 := if spec.invert_sign then values.map (fun p => (p.1, p.2.neg)) else values
  if spec.invert then
    let mx := smax (v1.map (fun p => p.2))
    let mn := smin (v1.map (fun p => p.2))
    v1.map (fun p => (p.1, (mx.add mn).sub p.2))
  else v1

/-- The `invert_0_100` branch: `(100 - v).clip(0,100)`. -/
def normInvert0100 (v2 : List (String × RVal)) : List (String × RVal) :=
  v2.map (fun p => (p.1, ((RVal.fin 100).sub p.2).clip 0 100))

/-- The `wgi` branch: `np.clip(((2.5 - v)/5.0)*100.0, 0, 100)`. -/
def normWgi (v2 : List (String × RVal)) : List (String × RVal) :=
  v2.map (fun p => (p.1, ((((RVal.fin (5/2)).sub p.2).div (RVal.fin 5)).mul
    (RVal.fin 100)).clip 0 100))

/-- The `linear_minmax` branch: min/max from the spec or the observed extrema,
`((v-mn)/(mx-mn))*100`, inverted when `higher_is_riskier` is false, clipped.
No degenerate-spread guard exists here: `mx = mn` divides by zero. -/
def normLinearMinmax (v2 : List (String × RVal)) (spec : NormSpec) :
    List (String × RVal) :=
  let vals := v2.map (fun p => p.2)
  let mn := match spec.min? with | some q => RVal.fin q | none => smin vals
  let mx := match spec.max? with | some q => RVal.fin q | none => smax vals
  v2.map (fun p =>
    let r := ((p.2.sub mn).div (mx.sub mn)).mul (RVal.fin 100)
    let r := if ¬ spec.higher_is_riskier then (RVal.fin 100).sub r else r
    (p.1, r.clip 0 100))

/-- The `log_cap` branch: `np.clip(log1p(v.clip(lower=0))/log1p(cap)*100, 0, 100)`. -/
def normLogCap (l1p : RVal → RVal) (v2 : List (String × RVal)) (spec : NormSpec) :
    List (String × RVal) :=
  let vals := v2.map (fun p => p.2)
  let cap := match spec.cap? with
    | some q => RVal.fin q
    | none => logCapDefault vals
  v2.map (fun p => (p.1, (((l1p p.2.clipLower0).div (l1p cap)).mul
    (RVal.fin 100)).clip 0 100))

/-- The default (`percentile_clamp`) branch: percentile or min/max bounds,
`((v-lo)/(hi-lo))*100` when `hi != lo` under float comparison (NaN bounds
compare unequal), the constant 50 for every entry otherwise, then the
`higher_is_riskier` inversion and the clip. -/
def normPercentileClamp (v2 : List (String × RVal)) (spec : NormSpec) :
    List (String × RVal) :=
  let vals := v2.map (fun p => p.2)
  let lohi := clampBounds vals spec
  let lo := lohi.1
  let hi := lohi.2
  let rs :=
    if RVal.neF hi lo then
      v2.map (fun p => (p.1, ((p.2.sub lo).div (hi.sub lo)).mul (RVal.fin 100)))
    else v2.map (fun p => (p.1, RVal.fin 50))
  let rs := if ¬ spec.higher_is_riskier
    then rs.map (fun p => (p.1, (RVal.fin 100).sub p.2)) else rs
  rs.map (fun p => (p.1, p.2.clip 0 100))

/-- `normalize(values, spec)` over a keyed series (named `normalizeSeries`
here because `normalize` is taken by Mathlib): the pre-scaling modifiers, then
the method dispatch, an unknown method falling through to the default
`percentile_clamp` path exactly as in the source.  `l1p` is the external
`np.log1p` (transcendental, hence a parameter of the embedding). -/
def normalizeSeries (l1p : RVal → RVal) (values : List (String × RVal)) (spec : NormSpec) :
    List (String × RVal) :=
  let v2 := normPre values spec
  if spec.method = "invert_0_100" then normInvert0100 v2
  else if spec.method = "wgi" then normWgi v2
  else if spec.method = "linear_minmax" then normLinearMinmax v2 spec
  else if spec.method = "log_cap" then normLogCap l1p v2 spec
  else normPercentileClamp v2 spec

/-! ## Source dispatch: `source_fetch` -/

/-- A source descriptor.  `type` is mandatory (every catalog entry carries a
typed source); branch-specific parameters are optional keys, whose absence
makes the corresponding `s["…"]` lookup fail inside the `try` block.
`per` has the in-code default `s.get("per", 100000.0)`. -/
structure SourceDesc where
  type : String
  code : Option String := none
  slug : Option String := none
  slug_value : Option String := none
  slug_population : Option String := none
  per : ℚ := 100000
  filename : Option String := none
  wb_code_fallback : Option String := none
deriving DecidableEq, Repr

/-- Per-indicator normalization override dict (the keys that may appear in an
indicator's `normalization` block; `{**defaults, **override}` merge below). -/
structure NormOverride where
  method : Option String := none
  higher_is_riskier : Option Bool := none
  invert_sign : Option Bool := none
  invert : Option Bool := none
  min? : Option ℚ := none
  max? : Option ℚ := none
  cap? : Option ℚ := none
  p_low : Option ℚ := none
  p_high : Option ℚ := none
deriving DecidableEq, Repr

/-- `{**defaults["normalization"], **ind.get("normalization", {})}`:
field-wise right-biased merge of the flat spec dicts. -/
def mergeNorm (d : NormSpec) (o : NormOverride) : NormSpec :=
  { method := o.method.getD d.method
    higher_is_riskier := o.higher_is_riskier.getD d.higher_is_riskier
    invert_sign := o.invert_sign.getD d.invert_sign
    invert := o.invert.getD d.invert
    min? := match o.min? with | some q => some q | none => d.min?
    max? := match o.max? with | some q => some q | none => d.max?
    cap? := match o.cap? with | some q => some q | none => d.cap?
    p_low := (o.p_low).getD d.p_low
    p_high := (o.p_high).getD d.p_high }

/-- An indicator definition from the catalog (`id`, `name`, `pillar`, `group`,
source descriptor, optional lookback / normalization overrides, `optional`
flag, optional linear `transform.scale`). -/
structure IndicatorDef where
  id : String
  name : String
  pillar : String
  group : String
  source : SourceDesc
  lookback_years : Option Nat := none
  normalization : NormOverride := {}
  optional : Bool := false
  transform_scale : Option ℚ := none

/-- The provider adapters (external collaborators of `source_fetch`): each may
fail, which in Python is an exception and here an `Except.error`. -/
structure Adapters where
  wb_fetch : String → Except String (List Row)
  fetch_wgi : String → Except String (List Row)
  fetch_grapher : String → Except String (List Row)
  fetch_percap : String → String → ℚ → Except String (List Row)
  fetch_nd_gain : Unit → Except String (List Row)
  fetch_acled_fatalities : Unit → Except String (List Row)
  fetch_vendor_csv : String → Except String (List Row)

/-- A missing dict key inside the `try` block (`s["code"]` etc.): KeyError. -/
def keyOf : Option α → Except String α
  | some a => Except.ok a
  | none => Except.error "KeyError"

/-- `source_fetch(ind)`: dispatch on `ind["source"]["type"]`; any exception
inside the `try` (adapter failure or missing parameter key) is swallowed and
an empty `iso3, year, value` table is returned, as is for an unknown type. -/
def source_fetch (A : Adapters) (ind : IndicatorDef) : List Row :=
  let s := ind.source
  let t := s.type
  let attempt : Except String (List Row) :=
    if t = "worldbank" then do A.wb_fetch (← keyOf s.code)
    else if t = "wgi" then do A.fetch_wgi (← keyOf s.code)
    else if t = "owid" then do A.fetch_grapher (← keyOf s.slug)
    else if t = "owid_percap" then do
      A.fetch_percap (← keyOf s.slug_value) (← keyOf s.slug_population) s.per
    else if t = "nd_gain" then A.fetch_nd_gain ()
    else if t = "acled" then A.fetch_acled_fatalities ()
    else if t = "vendor_csv" then do A.fetch_vendor_csv (← keyOf s.filename)
    else if t = "vendor_csv_or_gpi" then do
      let df ← A.fetch_vendor_csv "gpi_scores.csv"
      pure (if df ≠ [] then df else [])
    else if t = "worldbank_or_imf_weo" then do A.wb_fetch (← keyOf s.wb_code_fallback)
    else pure []
  match attempt with
  | Except.ok tbl => tbl
  | Except.error _ => []

/-! ## Aggregator and pipeline core: `run_pipeline` -/

/-- `DataFrame.mean(axis=1, skipna=True)` over one row: drop NaNs, average;
an all-NaN (or empty) set of columns gives NaN. -/
def dfMean (xs : List RVal) : RVal :=
  let ys := dropNa xs
  if ys = [] then RVal.nan else (sumR ys).div (RVal.fin ((ys.length : ℚ)))

/-- The finite part of a value (`fin q` gives `some q`). -/
def finPart : RVal → Option ℚ
  | RVal.fin q => some q
  | _ => none

/-- Modelled from the spec (§4.4, glossary): the skip-missing mean — the
arithmetic mean over only the non-missing members of a set; a set with no
non-missing members yields a missing result.  Stated over exact rationals,
for comparison with the pandas `mean(axis=1, skipna=True)` of the code. -/
def skipMissingMean (xs : List RVal) : RVal :=
  match xs.filterMap finPart with
  | [] => RVal.nan
  | qs => RVal.fin (qs.sum / (qs.length : ℚ))

/-- Run-wide defaults from the catalog. -/
structure Defaults where
  lookback_years : Nat
  normalization : NormSpec
  imputation_order : List String

/-- The per-run configuration: ordered indicator definitions, defaults, and
the declared pillar id list. -/
structure Config where
  indicators : List IndicatorDef
  defaults : Defaults
  pillars : List String

/-- First-occurrence deduplication (the key order of `group_map` /
`pillar_map`, built by `setdefault` insertion). -/
def dedupFirst : List String → List String
  | [] => []
  | x :: xs => x :: dedupFirst (xs.filter (fun y => ¬ y = x))
termination_by l => l.length
decreasing_by
  simp only [List.length_cons]
  exact Nat.lt_succ_of_le (List.length_filter_le _ _)

/-- The indicator ids of group `gid` (`gid = f"{pillar}::{group}"`), in
catalog order. -/
def groupMembers (cfg : Config) (gid : String) : List String :=
  (cfg.indicators.filter (fun i => i.pillar ++ "::" ++ i.group = gid)).map (fun i => i.id)

/-- The indicator ids of pillar `pid`, in catalog order. -/
def pillarMembers (cfg : Config) (pid : String) : List String :=
  (cfg.indicators.filter (fun i => i.pillar = pid)).map (fun i => i.id)

/-- Column lookup in the per-indicator normalized tables
(`df_wide[f"norm__{iid}"]` at a given country; absent gives NaN). -/
def normVal (nv : List (String × List (String × RVal))) (iid iso : String) : RVal :=
  match nv.find? (fun p => p.1 = iid) with
  | none => RVal.nan
  | some p => ((p.2.find? (fun q => q.1 = iso)).map (fun q => q.2)).getD RVal.nan

/-- `df_wide[f"group__{gid}"]`: skipna row mean of the group's member
indicator norm columns. -/
def groupScore (nv : List (String × List (String × RVal))) (cfg : Config)
    (gid iso : String) : RVal :=
  dfMean ((groupMembers cfg gid).map (fun iid => normVal nv iid iso))

/-- `df_wide[f"pillar__{pid}"]`: skipna row mean of the pillar's member
indicator norm columns. -/
def pillarScore (nv : List (String × List (String × RVal))) (cfg : Config)
    (pid iso : String) : RVal :=
  dfMean ((pillarMembers cfg pid).map (fun iid => normVal nv iid iso))

/-- `df_wide["risk_total"]`: skipna row mean over the declared pillars'
scores.  (In Python this indexes the `pillar__…` columns, which exist exactly
for the pillars that have at least one indicator; the embedding computes the
pillar score directly, which agrees whenever every declared pillar has one.) -/
def totalScore (nv : List (String × List (String × RVal))) (cfg : Config)
    (iso : String) : RVal :=
  dfMean (cfg.pillars.map (fun p => pillarScore nv cfg p iso))

/-- Series lookup with NaN default (`Series.get` / alignment on reindex). -/
def lookupVal (s : List (String × RVal)) (iso : String) : RVal :=
  ((s.find? (fun p => p.1 = iso)).map (fun p => p.2)).getD RVal.nan

/-- Value column of the (values, basis) state at a country. -/
def vbValue (st : List VB) (iso : String) : RVal :=
  ((st.find? (fun e => e.iso3 = iso)).map (fun e => e.value)).getD RVal.nan

/-- Basis column of the (values, basis) state at a country. -/
def vbBasis (st : List VB) (iso : String) : Option String :=
  ((st.find? (fun e => e.iso3 = iso)).map (fun e => e.basis)).getD none

/-- The per-indicator result stored by the run loop: `raw_values[iid]` and
`basis_values[iid]` (entry-wise in `values`), `norm_values[iid]`, and
`years_used[iid]` reindexed to the country list. -/
structure IndResult where
  values : List VB
  norm : List (String × RVal)
  years : List (String × RVal)

/-- The per-indicator body of the `run_pipeline` loop: optional linear
transform, temporal selection, restriction to registry countries, reindexing,
imputation with the default order, and normalization with the merged spec. -/
def processIndicator (l1p : RVal → RVal) (cfg : Config) (countries : List Country)
    (isoList : List String) (df0 : List Row) (ind : IndicatorDef) : IndResult :=
  let lookback := ind.lookback_years.getD cfg.defaults.lookback_years
  let specNorm := mergeNorm cfg.defaults.normalization ind.normalization
  let df := match ind.transform_scale with
    | some s => if df0 ≠ [] then
        df0.map (fun r => { r with value := r.value.mul (RVal.fin s) }) else df0
    | none => df0
  let ub := pick_latest_with_lookback_and_basis df lookback
  let used := ub.1.filter (fun r => isoList.contains r.iso3)
  let serUsed := used.map (fun r => (r.iso3, r.value))
  let serYear := used.map (fun r => (r.iso3, RVal.fin ((r.year : ℚ))))
  let valuesReindexed := isoList.map (fun iso => (iso, lookupVal serUsed iso))
  let st := impute_with_basis valuesReindexed used countries
    cfg.defaults.imputation_order ub.2
  let normFull := normalizeSeries l1p (st.map (fun e => (e.iso3, e.value))) specNorm
  ⟨st, normFull, isoList.map (fun iso => (iso, lookupVal serYear iso))⟩

/-- One row of the wide output (`out/risk_wide.csv` in memory):
raw / norm / basis / year per indicator, group and pillar scores, total. -/
structure WideRow where
  iso3 : String
  raw : List (String × RVal)
  norm : List (String × RVal)
  basis : List (String × Option String)
  groupScores : List (String × RVal)
  pillarScores : List (String × RVal)
  risk_total : RVal
  years : List (String × RVal)
deriving DecidableEq, Repr

/-- One record of the long output, tagged by `kind`. -/
inductive LongRec where
  | indicator (iso3 iid : String) (raw norm : RVal) (basis : Option String) (year : RVal)
  | group (iso3 gid : String) (norm : RVal)
  | pillar (iso3 pid : String) (norm : RVal)
  | total (iso3 : String) (norm : RVal)
deriving DecidableEq, Repr

/-- Basis-column lookup, `none` for an absent key. -/
def lookupB (s : List (String × Option String)) (iso : String) : Option String :=
  ((s.find? (fun p => p.1 = iso)).map (fun p => p.2)).getD none

/-- The computational core of `run_pipeline`: from the frozen raw input
tables (`fetched`, one table per indicator id, the result of the source
adapters), the registry snapshot and the catalog, to the wide and long
outputs.  File writing, timestamps and the coverage summary lie outside. -/
def runPipelineCore (l1p : RVal → RVal) (cfg : Config) (countries : List Country)
    (fetched : String → List Row) : List WideRow × List LongRec :=
  let isoList := countries.map (fun c => c.iso3)
  let results := cfg.indicators.map (fun ind =>
    (ind.id, processIndicator l1p cfg countries isoList (fetched ind.id) ind))
  let nv := results.map (fun p => (p.1, p.2.norm))
  let gids := dedupFirst (cfg.indicators.map (fun i => i.pillar ++ "::" ++ i.group))
  let pids := dedupFirst (cfg.indicators.map (fun i => i.pillar))
  let wide := isoList.map (fun iso =>
    { iso3 := iso
      raw := results.map (fun p => (p.1, vbValue p.2.values iso))
      norm := results.map (fun p => (p.1, lookupVal p.2.norm iso))
      basis := results.map (fun p => (p.1, vbBasis p.2.values iso))
      groupScores := gids.map (fun g => (g, groupScore nv cfg g iso))
      pillarScores := pids.map (fun p => (p, pillarScore nv cfg p iso))
      risk_total := totalScore nv cfg iso
      years := results.map (fun p => (p.1, lookupVal p.2.years iso)) : WideRow })
  let long := (wide.map (fun row =>
    (row.raw.map (fun p => LongRec.indicator row.iso3 p.1 p.2
        (lookupVal row.norm p.1) (lookupB row.basis p.1) (lookupVal row.years p.1)))
    ++ (row.groupScores.map (fun p => LongRec.group row.iso3 p.1 p.2))
    ++ (row.pillarScores.map (fun p => LongRec.pillar row.iso3 p.1 p.2))
    ++ [LongRec.total row.iso3 row.risk_total])).flatten
  (wide, long)

/-! ## Predicates and closed forms used by the statements -/

/-- "In `[0,100]` or missing": NaN, or a finite value between 0 and 100. -/
def inRange01 (x : RVal) : Prop :=
  x = RVal.nan ∨ ∃ q, x = RVal.fin q ∧ 0 ≤ q ∧ q ≤ 100

/-- A value that is a finite number or NaN (no infinity); the shape of every
value the pipeline stores after clipping. -/
def finOrNan (x : RVal) : Prop := x ≠ RVal.pinf ∧ x ≠ RVal.ninf

/-- The initialization step of `impute_with_basis` on one series entry. -/
def initFn (basisInit : List (String × String)) (p : String × RVal) : VB :=
  ⟨p.1, p.2, initBasis basisInit p.1⟩

/-- Closed form of the default fallback order (region, income, global) on one
country: a still-missing country receives the first non-NaN median among its
region median, its income median and the global median — each computed from
the anchor set `dfValues` alone — with the matching basis tag; a country with
a non-missing value is untouched. -/
def imputeClosed (dfValues : List Row) (countries : List Country) (e : VB) : VB :=
  if e.value.isNa then
    let r := regionMedFor dfValues countries e.iso3
    if ¬ r.isNa then { e with value := r, basis := some "region" }
    else
      let i := incomeMedFor dfValues countries e.iso3
      if ¬ i.isNa then { e with value := i, basis := some "income" }
      else
        let g := globalMed dfValues
        if ¬ g.isNa then { e with value := g, basis := some "global" }
        else e
  else e

/-- The per-country action of the region level (the body of `applyLevel`
for `"region"`). -/
def regionFill (dfValues : List Row) (countries : List Country) (e : VB) : VB :=
  if e.value.isNa then
    let v := regionMedFor dfValues countries e.iso3
    if v.isNa then e else { e with value := v, basis := some "region" }
  else e

/-- The per-country action of the income level. -/
def incomeFill (dfValues : List Row) (countries : List Country) (e : VB) : VB :=
  if e.value.isNa then
    let v := incomeMedFor dfValues countries e.iso3
    if v.isNa then e else { e with value := v, basis := some "income" }
  else e

/-- The per-country action of the global level. -/
def globalFill (dfValues : List Row) (e : VB) : VB :=
  if e.value.isNa then
    let v := globalMed dfValues
    if v.isNa then e else { e with value := v, basis := some "global" }
  else e

/-- All source adapters fail (raise), in every call. -/
def AdaptersFail (A : Adapters) : Prop :=
  (∀ c t, A.wb_fetch c ≠ Except.ok t) ∧
  (∀ c t, A.fetch_wgi c ≠ Except.ok t) ∧
  (∀ c t, A.fetch_grapher c ≠ Except.ok t) ∧
  (∀ a b q t, A.fetch_percap a b q ≠ Except.ok t) ∧
  (∀ t, A.fetch_nd_gain () ≠ Except.ok t) ∧
  (∀ t, A.fetch_acled_fatalities () ≠ Except.ok t) ∧
  (∀ c t, A.fetch_vendor_csv c ≠ Except.ok t)

/-! ## Theorems -/

/-- C3: the temporal selector probes `y_max − k` for the country's own
maximum observed year `y_max`, checking only whether a row exists at the
probed year — never whether its value is present.  A country whose latest
row carries a missing value but whose data lies 2 ≤ lookback years back is
therefore selected at the latest year with a missing value and tagged
`basis = "raw"`, not `"lookback"` with the value found 2 years back, even
though the function's own docstring says it looks back when the latest
year's value is None.  This theorem evaluates the code at that failing
input. -/
theorem pick_latest_missing_latest_value_tagged_raw :
    pick_latest_with_lookback_and_basis
        [⟨"AAA", 2023, RVal.nan⟩, ⟨"AAA", 2021, RVal.fin 5⟩] 2
      = ([⟨"AAA", 2023, RVal.nan⟩], [("AAA", "raw")]) := by decide

/-- C9: the computation from the frozen raw input tables, the registry
snapshot and the catalog to the wide and long outputs is a pure function:
two runs over identical input tables produce identical outputs.  The
embedding of the selection, imputation, normalization and aggregation stages
needed no source of randomness or time, which is the content of the claim. -/
theorem runPipelineCore_deterministic (l1p : RVal → RVal) (cfg : Config)
    (countries : List Country) (f g : String → List Row)
    (h : ∀ iid, f iid = g iid) :
    runPipelineCore l1p cfg countries f = runPipelineCore l1p cfg countries g := by
  have hfg : f = g := funext h
  rw [hfg]

/-- Witness for `runPipelineCore_deterministic` at a concrete input. -/
theorem runPipelineCore_deterministic_witness :
    runPipelineCore (fun x => x)
        ⟨[], ⟨3, {}, ["region", "income", "global"]⟩, []⟩
        [⟨"AUT", "Austria", some "Europe", some "High income"⟩]
        (fun _ => [⟨"AUT", 2024, RVal.fin 1⟩])
      = runPipelineCore (fun x => x)
        ⟨[], ⟨3, {}, ["region", "income", "global"]⟩, []⟩
        [⟨"AUT", "Austria", some "Europe", some "High income"⟩]
        (fun _ => [⟨"AUT", 2024, RVal.fin 1⟩]) :=
  runPipelineCore_deterministic (fun x => x) _ _ _ _ (fun _ => rfl)

/-- Helper: a branch of `source_fetch` that reads a parameter key and calls a
failing adapter cannot return `ok`: either the key is absent (KeyError) or
the adapter fails; both are exceptions inside the `try`. -/
theorem bindKey_fail {α : Type} (o : Option α) (f : α → Except String (List Row))
    (hf : ∀ a t, f a ≠ Except.ok t) (t : List Row) :
    (keyOf o).bind f ≠ Except.ok t := by
  cases o with
  | none => simp [keyOf, Except.bind]
  | some a => simpa [keyOf, Except.bind] using hf a t

/-- C8: `source_fetch` absorbs every adapter failure: for every indicator
definition and every source type, if the underlying adapters fail (and even
if a branch parameter key is absent), the result is the empty
`iso3, year, value` table — as a total Lean function, the embedding returns
a value on every input, the "never raises" of the claim. -/
theorem source_fetch_absorbs_failures (A : Adapters) (ind : IndicatorDef)
    (h : AdaptersFail A) : source_fetch A ind = [] := by
  obtain ⟨h1, h2, h3, h4, h5, h6, h7⟩ := h
  dsimp only [source_fetch]
  split
  case _ tbl heq =>
    split at heq
    · exact absurd heq (bindKey_fail _ _ (fun a t => h1 a t) tbl)
    · split at heq
      · exact absurd heq (bindKey_fail _ _ (fun a t => h2 a t) tbl)
      · split at heq
        · exact absurd heq (bindKey_fail _ _ (fun a t => h3 a t) tbl)
        · split at heq
          · exact absurd heq (bindKey_fail _ _ (fun a t =>
              bindKey_fail _ _ (fun b t2 => h4 a b ind.source.per t2) t) tbl)
          · split at heq
            · exact absurd heq (h5 tbl)
            · split at heq
              · exact absurd heq (h6 tbl)
              · split at heq
                · exact absurd heq (bindKey_fail _ _ (fun a t => h7 a t) tbl)
                · split at heq
                  · exfalso
                    cases hc : A.fetch_vendor_csv "gpi_scores.csv" with
                    | ok d => exact h7 "gpi_scores.csv" d hc
                    | error e =>
                        rw [hc] at heq
                        exact absurd heq (by simp [Except.bind])
                  · split at heq
                    · exact absurd heq (bindKey_fail _ _ (fun a t => h1 a t) tbl)
                    · -- the unknown-type fallthrough is `pure []`, not a failure
                      simp only [pure, Except.pure, Except.ok.injEq] at heq
                      exact heq.symm
  case _ e heq => rfl

/-- Witness for `source_fetch_absorbs_failures`: concrete failing adapters and
a concrete worldbank indicator give the empty table. -/
theorem source_fetch_absorbs_failures_witness :
    source_fetch
      ⟨fun _ => Except.error "down", fun _ => Except.error "down",
       fun _ => Except.error "down", fun _ _ _ => Except.error "down",
       fun _ => Except.error "down", fun _ => Except.error "down",
       fun _ => Except.error "down"⟩
      { id := "gdp", name := "GDP", pillar := "econ", group := "output",
        source := { type := "worldbank", code := some "NY.GDP.MKTP.CD" } }
      = [] :=
  source_fetch_absorbs_failures _ _
    ⟨fun _ _ h => Except.noConfusion h, fun _ _ h => Except.noConfusion h,
     fun _ _ h => Except.noConfusion h, fun _ _ _ _ h => Except.noConfusion h,
     fun _ h => Except.noConfusion h, fun _ h => Except.noConfusion h,
     fun _ _ h => Except.noConfusion h⟩

/-- Helper: clipping to `[0,100]` yields NaN or a finite value in `[0,100]`. -/
theorem clip_inRange01 (x : RVal) : inRange01 (x.clip 0 100) := by
  cases x with
  | nan => exact Or.inl rfl
  | pinf => exact Or.inr ⟨100, rfl, by norm_num⟩
  | ninf => exact Or.inr ⟨0, rfl, by norm_num⟩
  | fin q =>
      refine Or.inr ⟨min 100 (max 0 q), rfl, ?_, ?_⟩
      · exact le_min (by norm_num) (le_max_left 0 q)
      · exact min_le_left 100 (max 0 q)

/-- C1: for every normalization spec and every per-country value series,
every output of the normalizer is missing (NaN) or a finite number in
`[0,100]`: every method branch ends in a clip to `[0,100]`, which maps NaN to
NaN and everything else into the interval, so no out-of-range number and no
unflagged NaN is ever produced. -/
theorem normalize_in_range (l1p : RVal → RVal) (values : List (String × RVal))
    (spec : NormSpec) : ∀ p ∈ normalizeSeries l1p values spec, inRange01 p.2 := by
  intro p hp
  dsimp only [normalizeSeries] at hp
  split at hp
  · dsimp only [normInvert0100] at hp
    obtain ⟨a, ha, rfl⟩ := List.mem_map.mp hp
    exact clip_inRange01 _
  · split at hp
    · dsimp only [normWgi] at hp
      obtain ⟨a, ha, rfl⟩ := List.mem_map.mp hp
      exact clip_inRange01 _
    · split at hp
      · dsimp only [normLinearMinmax] at hp
        obtain ⟨a, ha, rfl⟩ := List.mem_map.mp hp
        exact clip_inRange01 _
      · split at hp
        · dsimp only [normLogCap] at hp
          obtain ⟨a, ha, rfl⟩ := List.mem_map.mp hp
          exact clip_inRange01 _
        · dsimp only [normPercentileClamp] at hp
          obtain ⟨a, ha, rfl⟩ := List.mem_map.mp hp
          exact clip_inRange01 _

/-- Witness for `normalize_in_range` at a concrete series and spec. -/
theorem normalize_in_range_witness :
    inRange01 (("AUT", RVal.nan) : String × RVal).2 :=
  normalize_in_range (fun x => x) [("AUT", RVal.nan)] { method := "invert_0_100" }
    ("AUT", RVal.nan) (by decide)

theorem getD_mem_of_lt {l : List RVal} {i : ℕ} {d : RVal} (h : i < l.length) :
    l.getD i d ∈ l := by
  rw [List.getD_eq_getElem l d h]
  exact List.getElem_mem h

theorem mem_insertR {x y : RVal} {l : List RVal} (h : y ∈ insertR x l) :
    y = x ∨ y ∈ l := by
  induction l with
  | nil => simpa [insertR] using h
  | cons z zs ih =>
      by_cases hle : RVal.leB x z
      · simp only [insertR, hle, if_true] at h
        rcases List.mem_cons.mp h with h | h
        · exact Or.inl h
        · exact Or.inr h
      · simp only [insertR, hle, if_false] at h
        rcases List.mem_cons.mp h with h | h
        · exact Or.inr (h ▸ List.mem_cons_self z zs)
        · rcases ih h with h2 | h2
          · exact Or.inl h2
          · exact Or.inr (List.mem_cons_of_mem z h2)

theorem length_insertR (x : RVal) (l : List RVal) :
    (insertR x l).length = l.length + 1 := by
  induction l with
  | nil => rfl
  | cons z zs ih =>
      by_cases hle : RVal.leB x z
      · simp [insertR, hle]
      · simp [insertR, hle, ih]

theorem mem_sortR {y : RVal} {l : List RVal} (h : y ∈ sortR l) : y ∈ l := by
  induction l with
  | nil => simp [sortR] at h
  | cons z zs ih =>
      rcases mem_insertR (l := sortR zs) (by simpa [sortR] using h) with h2 | h2
      · exact h2 ▸ List.mem_cons_self z zs
      · exact List.mem_cons_of_mem z (ih h2)

theorem length_sortR (l : List RVal) : (sortR l).length = l.length := by
  induction l with
  | nil => rfl
  | cons z zs ih => simp [sortR, length_insertR, ih]

theorem foldl_keep_const (f : RVal → RVal → RVal) (c : ℚ)
    (hf : f (RVal.fin c) (RVal.fin c) = RVal.fin c) :
    ∀ (ys : List RVal) (a : RVal), (∀ z ∈ ys, z = RVal.fin c) → a = RVal.fin c →
      ys.foldl f a = RVal.fin c := by
  intro ys
  induction ys with
  | nil => intro a _ ha; simpa using ha
  | cons z zs ih =>
      intro a hall ha
      have hz : z = RVal.fin c := hall z (List.mem_cons_self z zs)
      have : f a z = RVal.fin c := by rw [ha, hz, hf]
      exact ih (f a z) (fun w hw => hall w (List.mem_cons_of_mem z hw)) this

theorem dropNa_all_const {xs : List RVal} {c : ℚ}
    (hall : ∀ x ∈ xs, x = RVal.fin c ∨ x = RVal.nan) :
    ∀ y ∈ dropNa xs, y = RVal.fin c := by
  intro y hy
  have hmem := List.mem_of_mem_filter hy
  have hpred := List.of_mem_filter hy
  rcases hall y hmem with h | h
  · exact h
  · subst h; simp [RVal.isNa] at hpred

theorem dropNa_ne_nil {xs : List RVal} {c : ℚ} (hsome : RVal.fin c ∈ xs) :
    dropNa xs ≠ [] := by
  intro he
  have : RVal.fin c ∈ dropNa xs := by
    refine List.mem_filter.mpr ⟨hsome, by simp [RVal.isNa]⟩
  rw [he] at this
  simp at this

theorem smax_const {xs : List RVal} {c : ℚ}
    (hall : ∀ x ∈ xs, x = RVal.fin c ∨ x = RVal.nan) (hsome : RVal.fin c ∈ xs) :
    smax xs = RVal.fin c := by
  have hd := dropNa_all_const hall
  have hne := dropNa_ne_nil hsome
  unfold smax
  cases hdn : dropNa xs with
  | nil => exact absurd hdn hne
  | cons y ys =>
      have hy : y = RVal.fin c := hd y (hdn ▸ List.mem_cons_self y ys)
      refine foldl_keep_const _ c ?_ ys y
        (fun z hz => hd z (hdn ▸ List.mem_cons_of_mem y hz)) hy
      simp

theorem smin_const {xs : List RVal} {c : ℚ}
    (hall : ∀ x ∈ xs, x = RVal.fin c ∨ x = RVal.nan) (hsome : RVal.fin c ∈ xs) :
    smin xs = RVal.fin c := by
  have hd := dropNa_all_const hall
  have hne := dropNa_ne_nil hsome
  unfold smin
  cases hdn : dropNa xs with
  | nil => exact absurd hdn hne
  | cons y ys =>
      have hy : y = RVal.fin c := hd y (hdn ▸ List.mem_cons_self y ys)
      refine foldl_keep_const _ c ?_ ys y
        (fun z hz => hd z (hdn ▸ List.mem_cons_of_mem y hz)) hy
      simp

theorem pctl_const {xs : List RVal} {c : ℚ} (p : ℚ)
    (hall : ∀ x ∈ xs, x = RVal.fin c ∨ x = RVal.nan) (hsome : RVal.fin c ∈ xs) :
    pctl xs p = RVal.fin c := by
  have hd := dropNa_all_const hall
  have hne := dropNa_ne_nil hsome
  have hs : ∀ y ∈ sortR (dropNa xs), y = RVal.fin c := fun y hy => hd y (mem_sortR hy)
  have hlen : (sortR (dropNa xs)).length ≠ 0 := by
    rw [length_sortR]
    exact fun h => hne (List.length_eq_zero.mp h)
  unfold pctl
  simp only [hlen, if_false]
  split
  case _ hlt =>
    have h1 : (sortR (dropNa xs)).getD _ RVal.nan ∈ sortR (dropNa xs) :=
      getD_mem_of_lt (Nat.lt_of_succ_lt hlt)
    exact hs _ h1 ▸ (by rw [hs _ (getD_mem_of_lt (Nat.lt_of_succ_lt hlt)), hs _ (getD_mem_of_lt hlt)]; simp [RVal.sub, RVal.neg, RVal.add, RVal.mul])
  case _ hge =>
    exact hs _ (getD_mem_of_lt (Nat.sub_lt (Nat.pos_of_ne_zero hlen) Nat.one_pos))

theorem clampBounds_const {vals : List RVal} {c : ℚ} (spec : NormSpec)
    (hall : ∀ x ∈ vals, x = RVal.fin c ∨ x = RVal.nan) (hsome : RVal.fin c ∈ vals) :
    clampBounds vals spec = (RVal.fin c, RVal.fin c) := by
  unfold clampBounds
  split
  · rw [pctl_const spec.p_low hall hsome, pctl_const spec.p_high hall hsome]
  · rw [smin_const hall hsome, smax_const hall hsome]

theorem normPre_const {values : List (String × RVal)} {c : ℚ} (spec : NormSpec)
    (hall : ∀ p ∈ values, p.2 = RVal.fin c ∨ p.2 = RVal.nan)
    (hsome : ∃ p ∈ values, p.2 = RVal.fin c) :
    ∃ c2, (∀ p ∈ normPre values spec, p.2 = RVal.fin c2 ∨ p.2 = RVal.nan) ∧
      (∃ p ∈ normPre values spec, p.2 = RVal.fin c2) := by
  unfold normPre
  set c1 := if spec.invert_sign then -c else c with hc1
  set v1 := if spec.invert_sign then values.map (fun p => (p.1, p.2.neg)) else values
    with hv1
  have hall1 : ∀ p ∈ v1, p.2 = RVal.fin c1 ∨ p.2 = RVal.nan := by
    intro p hp
    rw [hv1] at hp
    by_cases hs : spec.invert_sign
    · simp only [hs, if_true] at hp
      obtain ⟨a, ha, rfl⟩ := List.mem_map.mp hp
      rcases hall a ha with h | h <;> simp [h, RVal.neg, hc1, hs]
    · simp only [hs, if_false] at hp
      rcases hall p hp with h | h <;> simp [h, hc1, hs]
  have hsome1 : ∃ p ∈ v1, p.2 = RVal.fin c1 := by
    obtain ⟨p, hp, hv⟩ := hsome
    rw [hv1]
    by_cases hs : spec.invert_sign
    · exact ⟨(p.1, p.2.neg), by
        simp only [hs, if_true]
        exact ⟨List.mem_map.mpr ⟨p, hp, rfl⟩, by simp [hv, RVal.neg, hc1, hs]⟩⟩
    · exact ⟨p, by simp only [hs, if_false]; exact ⟨hp, by simp [hv, hc1, hs]⟩⟩
  by_cases hi : spec.invert
  · refine ⟨c1, ?_⟩
    have hmx : smax (v1.map (fun p => p.2)) = RVal.fin c1 := by
      refine smax_const ?_ ?_
      · intro x hx
        obtain ⟨a, ha, rfl⟩ := List.mem_map.mp hx
        exact hall1 a ha
      · obtain ⟨p, hp, hv⟩ := hsome1
        exact hv ▸ List.mem_map.mpr ⟨p, hp, rfl⟩
    have hmn : smin (v1.map (fun p => p.2)) = RVal.fin c1 := by
      refine smin_const ?_ ?_
      · intro x hx
        obtain ⟨a, ha, rfl⟩ := List.mem_map.mp hx
        exact hall1 a ha
      · obtain ⟨p, hp, hv⟩ := hsome1
        exact hv ▸ List.mem_map.mpr ⟨p, hp, rfl⟩
    simp only [hi, if_true, hmx, hmn]
    constructor
    · intro p hp
      obtain ⟨a, ha, rfl⟩ := List.mem_map.mp hp
      rcases hall1 a ha with h | h
      · left
        rw [h]
        simp only [RVal.add, RVal.sub, RVal.neg]
        norm_num
      · right
        rw [h]
        simp [RVal.add, RVal.sub, RVal.neg]
    · obtain ⟨p, hp, hv⟩ := hsome1
      refine ⟨(p.1, (((RVal.fin c1).add (RVal.fin c1)).sub p.2)), List.mem_map.mpr ⟨p, hp, rfl⟩, ?_⟩
      rw [hv]
      simp only [RVal.add, RVal.sub, RVal.neg]
      norm_num
  · exact ⟨c1, by simpa only [hi, if_false] using ⟨hall1, hsome1⟩⟩

theorem normPercentileClamp_const {v2 : List (String × RVal)} {c : ℚ} (spec : NormSpec)
    (hall : ∀ p ∈ v2, p.2 = RVal.fin c ∨ p.2 = RVal.nan)
    (hsome : ∃ p ∈ v2, p.2 = RVal.fin c) :
    ∀ q ∈ normPercentileClamp v2 spec, q.2 = RVal.fin 50 := by
  have hvall : ∀ x ∈ v2.map (fun p => p.2), x = RVal.fin c ∨ x = RVal.nan := by
    intro x hx
    obtain ⟨a, ha, rfl⟩ := List.mem_map.mp hx
    exact hall a ha
  have hvsome : RVal.fin c ∈ v2.map (fun p => p.2) := by
    obtain ⟨p, hp, hv⟩ := hsome
    exact hv ▸ List.mem_map.mpr ⟨p, hp, rfl⟩
  have hb := clampBounds_const spec hvall hvsome
  intro q hq
  dsimp only [normPercentileClamp] at hq
  rw [hb] at hq
  have hne : RVal.neF (RVal.fin c) (RVal.fin c) = false := by simp [RVal.neF]
  rw [hne] at hq
  simp only [Bool.false_eq_true, if_false] at hq
  by_cases hir : spec.higher_is_riskier
  · rw [if_neg (fun hcon => hcon hir)] at hq
    obtain ⟨a, ha, rfl⟩ := List.mem_map.mp hq
    obtain ⟨b, hb2, rfl⟩ := List.mem_map.mp ha
    simp only [RVal.clip]
    norm_num
  · rw [if_pos hir] at hq
    obtain ⟨a, ha, rfl⟩ := List.mem_map.mp hq
    obtain ⟨b, hb2, rfl⟩ := List.mem_map.mp ha
    obtain ⟨d, hd, rfl⟩ := List.mem_map.mp hb2
    simp only [RVal.sub, RVal.neg, RVal.add, RVal.clip]
    norm_num

/-- C7 amended: for the default `percentile_clamp` method, whenever the
non-missing values handed to the normalizer are degenerate — all equal to one
constant (zero variance, any count ≥ 1) — the computed bounds coincide and the
normalizer returns the constant 50 for every entry instead of dividing by
zero.  The other methods carry no such guard (see the counterexample). -/
theorem normalize_percentile_clamp_degenerate (l1p : RVal → RVal)
    (values : List (String × RVal)) (spec : NormSpec) (c : ℚ)
    (hm : spec.method = "percentile_clamp")
    (hall : ∀ p ∈ values, p.2 = RVal.fin c ∨ p.2 = RVal.nan)
    (hsome : ∃ p ∈ values, p.2 = RVal.fin c) :
    ∀ q ∈ normalizeSeries l1p values spec, q.2 = RVal.fin 50 := by
  obtain ⟨c2, hall2, hsome2⟩ := normPre_const spec hall hsome
  intro q hq
  dsimp only [normalizeSeries] at hq
  rw [hm] at hq
  rw [if_neg (by decide), if_neg (by decide), if_neg (by decide),
      if_neg (by decide)] at hq
  exact normPercentileClamp_const spec hall2 hsome2 q hq

/-- C7 counterexample: for the `linear_minmax` method a degenerate spread is
NOT mapped to the constant 50: on the zero-variance series `[3,3,3]` with no
spec min/max the method divides by `mx − mn = 0`, producing NaN (`0/0`) for
every entry — so "for every normalization method, degenerate spread yields the
constant 50" fails on the code. -/
theorem normalize_degenerate_not_always_50 :
    (normalizeSeries (fun x => x)
        [("A", RVal.fin 3), ("B", RVal.fin 3), ("C", RVal.fin 3)]
        { method := "linear_minmax" }).map (fun p => p.2)
      = [RVal.nan, RVal.nan, RVal.nan] ∧ RVal.nan ≠ RVal.fin 50 := by
  constructor
  · dsimp only [normalizeSeries]
    rw [if_neg (by decide), if_neg (by decide), if_pos rfl]
    norm_num [normPre, normLinearMinmax, smin, smax, dropNa,
      RVal.isNa, RVal.sub, RVal.neg, RVal.add, RVal.div, RVal.mul, RVal.clip,
      List.filter]
  · decide

/-- Witness for `normalize_percentile_clamp_degenerate` on the constant
series `[1,1,1]`. -/
theorem normalize_percentile_clamp_degenerate_witness :
    (("A", RVal.fin 50) : String × RVal).2 = RVal.fin 50 :=
  normalize_percentile_clamp_degenerate (fun x => x)
    [("A", RVal.fin 1), ("B", RVal.fin 1), ("C", RVal.fin 1)] {} 1 rfl
    (by decide) (by decide) ("A", RVal.fin 50) (by decide)

/-- Helper: the region level acts entry-wise. -/
theorem applyLevel_region (dv : List Row) (cs : List Country) (st : List VB) :
    applyLevel "region" dv cs st = st.map (regionFill dv cs) := rfl

/-- Helper: the income level acts entry-wise. -/
theorem applyLevel_income (dv : List Row) (cs : List Country) (st : List VB) :
    applyLevel "income" dv cs st = st.map (incomeFill dv cs) := rfl

/-- Helper: the global level acts entry-wise. -/
theorem applyLevel_global (dv : List Row) (cs : List Country) (st : List VB) :
    applyLevel "global" dv cs st = st.map (globalFill dv) := rfl

/-- Helper: applying the three levels in order to one entry gives the
closed form. -/
theorem fills_compose (dv : List Row) (cs : List Country) (e : VB) :
    globalFill dv (incomeFill dv cs (regionFill dv cs e)) = imputeClosed dv cs e := by
  by_cases hna : e.value.isNa
  · by_cases hrm : (regionMedFor dv cs e.iso3).isNa
    · by_cases him : (incomeMedFor dv cs e.iso3).isNa
      · by_cases hgm : (globalMed dv).isNa
        · simp [regionFill, incomeFill, globalFill, imputeClosed, hna, hrm, him, hgm]
        · simp [regionFill, incomeFill, globalFill, imputeClosed, hna, hrm, him, hgm]
      · simp [regionFill, incomeFill, globalFill, imputeClosed, hna, hrm, him]
    · simp [regionFill, incomeFill, globalFill, imputeClosed, hna, hrm]
  · simp [regionFill, incomeFill, globalFill, imputeClosed, hna]

/-- Helper: the level loop with the default order (region, income, global),
including its early exits, equals the entry-wise closed form. -/
theorem imputeLevels_rig_char (dv : List Row) (cs : List Country) (st : List VB) :
    imputeLevels dv cs ["region", "income", "global"] st
      = st.map (imputeClosed dv cs) := by
  simp only [imputeLevels, applyLevel_region, applyLevel_income, applyLevel_global,
    List.map_map]
  by_cases h0 : st.all (fun e => ¬ e.value.isNa) = true
  · rw [if_pos h0]
    have hid : ∀ e ∈ st, imputeClosed dv cs e = id e := by
      intro e he
      have hna := List.all_eq_true.mp h0 e he
      simp only [decide_eq_true_eq] at hna
      simp [imputeClosed, hna]
    rw [List.map_congr_left hid, List.map_id]
  · rw [if_neg h0]
    by_cases h1 : (st.map (regionFill dv cs)).all (fun e => ¬ e.value.isNa) = true
    · rw [if_pos h1]
      refine List.map_congr_left ?_
      intro e he
      have hnn : ¬ (regionFill dv cs e).value.isNa := by
        have := List.all_eq_true.mp h1 (regionFill dv cs e)
          (List.mem_map.mpr ⟨e, he, rfl⟩)
        simpa using this
      by_cases hna : e.value.isNa
      · by_cases hrm : (regionMedFor dv cs e.iso3).isNa
        · exfalso
          apply hnn
          simp [regionFill, hna, hrm]
        · simp [regionFill, imputeClosed, hna, hrm]
      · simp [regionFill, imputeClosed, hna]
    · rw [if_neg h1]
      by_cases h2 : (st.map (incomeFill dv cs ∘ regionFill dv cs)).all
          (fun e => ¬ e.value.isNa) = true
      · rw [if_pos h2]
        refine List.map_congr_left ?_
        intro e he
        have hnn : ¬ (incomeFill dv cs (regionFill dv cs e)).value.isNa := by
          have := List.all_eq_true.mp h2 ((incomeFill dv cs ∘ regionFill dv cs) e)
            (List.mem_map.mpr ⟨e, he, rfl⟩)
          simpa using this
        by_cases hna : e.value.isNa
        · by_cases hrm : (regionMedFor dv cs e.iso3).isNa
          · by_cases him : (incomeMedFor dv cs e.iso3).isNa
            · exfalso
              apply hnn
              simp [regionFill, incomeFill, hna, hrm, him]
            · simp [regionFill, incomeFill, imputeClosed, hna, hrm, him]
          · simp [regionFill, incomeFill, imputeClosed, hna, hrm]
        · simp [regionFill, incomeFill, imputeClosed, hna]
      · rw [if_neg h2]
        refine List.map_congr_left ?_
        intro e _
        exact fills_compose dv cs e

/-- Helper: `impute_with_basis` with the default order equals the entry-wise
closed form applied to the initialized series. -/
theorem impute_with_basis_char (series : List (String × RVal)) (dv : List Row)
    (cs : List Country) (binit : List (String × String)) :
    impute_with_basis series dv cs ["region", "income", "global"] binit
      = series.map (fun p => imputeClosed dv cs (initFn binit p)) := by
  unfold impute_with_basis
  rw [imputeLevels_rig_char, List.map_map]
  rfl

/-- C4: every value the imputation engine assigns comes from a median over
the anchor set alone.  The result of `impute_with_basis` under the default
order (region, income, global) is, entry by entry, the closed form
`imputeClosed`, whose region, income and global medians (`regionMedFor`,
`incomeMedFor`, `globalMed`) are computed purely from the anchor rows
`dv` — values filled at an earlier fallback level never feed a later level's
median. -/
theorem impute_medians_from_anchor_only (series : List (String × RVal)) (dv : List Row)
    (cs : List Country) (binit : List (String × String)) :
    impute_with_basis series dv cs ["region", "income", "global"] binit
      = series.map (fun p => imputeClosed dv cs (initFn binit p)) :=
  impute_with_basis_char series dv cs binit

/-- Helper: `imputeClosed` never changes a country's key. -/
theorem imputeClosed_iso3 (dv : List Row) (cs : List Country) (e : VB) :
    (imputeClosed dv cs e).iso3 = e.iso3 := by
  unfold imputeClosed
  by_cases hna : e.value.isNa
  · by_cases hrm : (regionMedFor dv cs e.iso3).isNa
    · by_cases him : (incomeMedFor dv cs e.iso3).isNa
      · by_cases hgm : (globalMed dv).isNa
        · simp [hna, hrm, him, hgm]
        · simp [hna, hrm, him, hgm]
      · simp [hna, hrm, him]
    · simp [hna, hrm]
  · simp [hna]

/-- Helper: key-based lookup commutes with a key-preserving map. -/
theorem find?_map_keyed (series : List (String × RVal)) (f : String × RVal → VB)
    (hk : ∀ p, (f p).iso3 = p.1) (iso : String) :
    (series.map f).find? (fun e => e.iso3 = iso)
      = (series.find? (fun p => p.1 = iso)).map f := by
  induction series with
  | nil => rfl
  | cons p ps ih =>
      by_cases hp : p.1 = iso
      · rw [List.map_cons,
          List.find?_cons_of_pos _ (by simp [hk, hp]),
          List.find?_cons_of_pos _ (by simp [hp])]
        rfl
      · rw [List.map_cons,
          List.find?_cons_of_neg _ (by simp [hk, hp]),
          List.find?_cons_of_neg _ (by simp [hp])]
        exact ih

/-- C10 (frame effect): the imputation engine never modifies a country that
already has a non-missing value — its value passes through unchanged and its
basis tag stays exactly the initial raw/lookback assignment; every level
assigns only to countries missing at that level's start. -/
theorem impute_frame_nonmissing (series : List (String × RVal)) (dv : List Row)
    (cs : List Country) (binit : List (String × String)) (iso : String) (q : ℚ)
    (h : lookupVal series iso = RVal.fin q) :
    vbValue (impute_with_basis series dv cs ["region", "income", "global"] binit) iso
        = RVal.fin q
    ∧ vbBasis (impute_with_basis series dv cs ["region", "income", "global"] binit) iso
        = initBasis binit iso := by
  rw [impute_with_basis_char]
  unfold vbValue vbBasis
  rw [find?_map_keyed _ _ (fun p => by
    rw [imputeClosed_iso3]; rfl) iso]
  unfold lookupVal at h
  cases hf : series.find? (fun p => p.1 = iso) with
  | none =>
      rw [hf] at h
      exact absurd h (by simp)
  | some p0 =>
      rw [hf] at h
      simp only [Option.map_some', Option.getD_some] at h ⊢
      have hkey : p0.1 = iso := by
        have := List.find?_some hf
        simpa using this
      constructor
      · simp [imputeClosed, initFn, h, RVal.isNa]
      · simp [imputeClosed, initFn, h, hkey, RVal.isNa]

/-- Witness for `impute_frame_nonmissing` at a concrete series. -/
theorem impute_frame_nonmissing_witness :
    vbValue (impute_with_basis [("BBB", RVal.fin 4)] [] []
        ["region", "income", "global"] [("BBB", "raw")]) "BBB" = RVal.fin 4
    ∧ vbBasis (impute_with_basis [("BBB", RVal.fin 4)] [] []
        ["region", "income", "global"] [("BBB", "raw")]) "BBB"
      = initBasis [("BBB", "raw")] "BBB" :=
  impute_frame_nonmissing [("BBB", RVal.fin 4)] [] [] [("BBB", "raw")] "BBB" 4
    (by decide)

/-- C5 counterexample: the basis tag is not set exactly once per run.  In the
run fragment below, country AAA's only row carries a missing value; the
selector tags AAA with `basis = "raw"` (first set), and the imputation stage,
seeing AAA's value missing, overwrites that tag with `"region"` (second set) —
the tag set by the more specific raw stage is replaced by the less specific
region stage. -/
theorem basis_set_twice_counterexample :
    (pick_latest_with_lookback_and_basis
        [⟨"AAA", 2023, RVal.nan⟩, ⟨"BBB", 2023, RVal.fin 4⟩] 0).2
      = [("AAA", "raw"), ("BBB", "raw")]
    ∧ vbBasis (impute_with_basis [("AAA", RVal.nan), ("BBB", RVal.fin 4)]
        (pick_latest_with_lookback_and_basis
          [⟨"AAA", 2023, RVal.nan⟩, ⟨"BBB", 2023, RVal.fin 4⟩] 0).1
        [⟨"AAA", "A", some "R", some "H"⟩, ⟨"BBB", "B", some "R", some "H"⟩]
        ["region", "income", "global"]
        (pick_latest_with_lookback_and_basis
          [⟨"AAA", 2023, RVal.nan⟩, ⟨"BBB", 2023, RVal.fin 4⟩] 0).2) "AAA"
      = some "region"
    ∧ (some "region" : Option String) ≠ some "raw" := by
  refine ⟨by decide, by decide, by decide⟩

/-- C5 amended: once a stage has actually supplied a non-missing value for a
(indicator, country) — here, a non-missing selected raw/lookback value — no
later stage overwrites its basis tag: the entry passes through the imputation
levels with its value and its initial tag intact.  (A raw/lookback tag
attached to a missing selected value, as in the counterexample, is the only
tag that can be overwritten.) -/
theorem impute_preserves_successful_basis (series : List (String × RVal))
    (dv : List Row) (cs : List Country) (binit : List (String × String)) :
    ∀ p ∈ series, ¬ p.2.isNa →
      VB.mk p.1 p.2 (initBasis binit p.1)
        ∈ impute_with_basis series dv cs ["region", "income", "global"] binit := by
  intro p hp hna
  rw [impute_with_basis_char]
  refine List.mem_map.mpr ⟨p, hp, ?_⟩
  simp only [Bool.not_eq_true] at hna
  simp [imputeClosed, initFn, hna]

/-- Witness for `impute_preserves_successful_basis`. -/
theorem impute_preserves_successful_basis_witness :
    VB.mk "BBB" (RVal.fin 4) (initBasis [("BBB", "raw")] "BBB")
      ∈ impute_with_basis [("BBB", RVal.fin 4)] [] []
        ["region", "income", "global"] [("BBB", "raw")] :=
  impute_preserves_successful_basis _ _ _ _ ("BBB", RVal.fin 4)
    (by decide) (by decide)

/-- Helper: an initial basis tag can only be a raw/lookback tag from the
selector. -/
theorem initBasis_raw_or_lookback {binit : List (String × String)}
    (hbi : ∀ x ∈ binit, x.2 = "raw" ∨ x.2 = "lookback") (iso : String) (b : String)
    (h : initBasis binit iso = some b) : b = "raw" ∨ b = "lookback" := by
  unfold initBasis at h
  cases hfind : binit.find? (fun p => p.1 = iso) with
  | none => rw [hfind] at h; simp at h
  | some x =>
      rw [hfind] at h
      simp only [Option.map_some', Option.some.injEq] at h
      exact h ▸ hbi x (List.mem_of_find?_eq_some hfind)

/-- C6 (fallback monotonicity, under the default order region → income →
global, with selector-produced raw/lookback initial tags): a country is
assigned at the income level only if the region level failed for it (no
region median existed for its region in the anchor set), and at the global
level only if both the region and the income medians failed; conversely a
still-missing country whose region (resp. income) median exists is assigned
right there — a level with available data is never skipped. -/
theorem impute_fallback_monotone (series : List (String × RVal)) (dv : List Row)
    (cs : List Country) (binit : List (String × String))
    (hbi : ∀ x ∈ binit, x.2 = "raw" ∨ x.2 = "lookback") :
    (∀ e ∈ impute_with_basis series dv cs ["region", "income", "global"] binit,
        (e.basis = some "income" → (regionMedFor dv cs e.iso3).isNa = true)
      ∧ (e.basis = some "global" →
          (regionMedFor dv cs e.iso3).isNa = true
          ∧ (incomeMedFor dv cs e.iso3).isNa = true))
    ∧ (∀ p ∈ series, p.2.isNa = true → (regionMedFor dv cs p.1).isNa = false →
        VB.mk p.1 (regionMedFor dv cs p.1) (some "region")
          ∈ impute_with_basis series dv cs ["region", "income", "global"] binit)
    ∧ (∀ p ∈ series, p.2.isNa = true → (regionMedFor dv cs p.1).isNa = true →
        (incomeMedFor dv cs p.1).isNa = false →
        VB.mk p.1 (incomeMedFor dv cs p.1) (some "income")
          ∈ impute_with_basis series dv cs ["region", "income", "global"] binit) := by
  rw [impute_with_basis_char]
  refine ⟨?_, ?_, ?_⟩
  · intro e he
    obtain ⟨p, hp, rfl⟩ := List.mem_map.mp he
    rw [imputeClosed_iso3]
    have hiso : (initFn binit p).iso3 = p.1 := rfl
    rw [hiso]
    by_cases hna : p.2.isNa = true
    · by_cases hrm : (regionMedFor dv cs p.1).isNa = true
      · by_cases him : (incomeMedFor dv cs p.1).isNa = true
        · by_cases hgm : (globalMed dv).isNa = true
          · constructor
            · intro hb
              have hib : initBasis binit p.1 = some "income" := by
                simpa [imputeClosed, initFn, hna, hrm, him, hgm] using hb
              rcases initBasis_raw_or_lookback hbi p.1 "income" hib with h | h <;>
                simp at h
            · intro hb
              have hib : initBasis binit p.1 = some "global" := by
                simpa [imputeClosed, initFn, hna, hrm, him, hgm] using hb
              rcases initBasis_raw_or_lookback hbi p.1 "global" hib with h | h <;>
                simp at h
          · constructor
            · intro hb
              simp [imputeClosed, initFn, hna, hrm, him, hgm] at hb
            · intro _
              exact ⟨hrm, him⟩
        · constructor
          · intro _
            exact hrm
          · intro hb
            simp [imputeClosed, initFn, hna, hrm, him] at hb
      · constructor
        · intro hb
          simp [imputeClosed, initFn, hna, hrm] at hb
        · intro hb
          simp [imputeClosed, initFn, hna, hrm] at hb
    · constructor
      · intro hb
        have hib : initBasis binit p.1 = some "income" := by
          simpa [imputeClosed, initFn, hna] using hb
        rcases initBasis_raw_or_lookback hbi p.1 "income" hib with h | h <;> simp at h
      · intro hb
        have hib : initBasis binit p.1 = some "global" := by
          simpa [imputeClosed, initFn, hna] using hb
        rcases initBasis_raw_or_lookback hbi p.1 "global" hib with h | h <;> simp at h
  · intro p hp hna hrm
    refine List.mem_map.mpr ⟨p, hp, ?_⟩
    simp [imputeClosed, initFn, hna, hrm]
  · intro p hp hna hrm him
    refine List.mem_map.mpr ⟨p, hp, ?_⟩
    simp [imputeClosed, initFn, hna, hrm, him]

/-- Witness for `impute_fallback_monotone`: a country with no region reaches
the income level and receives the income median of the anchor set. -/
theorem impute_fallback_monotone_witness :
    VB.mk "AAA" (incomeMedFor [⟨"BBB", 2020, RVal.fin 7⟩]
        [⟨"AAA", "A", none, some "HI"⟩, ⟨"BBB", "B", some "R", some "HI"⟩] "AAA")
      (some "income")
    ∈ impute_with_basis [("AAA", RVal.nan)] [⟨"BBB", 2020, RVal.fin 7⟩]
        [⟨"AAA", "A", none, some "HI"⟩, ⟨"BBB", "B", some "R", some "HI"⟩]
        ["region", "income", "global"] [] :=
  (impute_fallback_monotone _ _ _ _ (by simp)).2.2 ("AAA", RVal.nan) (by decide)
    (by decide) (by decide) (by decide)

/-- Helper: the float sum of finite values is the rational sum. -/
theorem sumR_fins (qs : List ℚ) : sumR (qs.map RVal.fin) = RVal.fin qs.sum := by
  have hgen : ∀ (l : List ℚ) (a : ℚ),
      (l.map RVal.fin).foldl RVal.add (RVal.fin a) = RVal.fin (a + l.sum) := by
    intro l
    induction l with
    | nil => intro a; simp
    | cons q l ih =>
        intro a
        simp only [List.map_cons, List.foldl_cons, RVal.add, List.sum_cons]
        rw [ih (a + q)]
        ring_nf
  unfold sumR
  rw [hgen qs 0]
  norm_num

/-- Helper: on infinity-free lists, `dropna` keeps exactly the finite parts. -/
theorem dropNa_of_finOrNan (xs : List RVal) (h : ∀ x ∈ xs, finOrNan x) :
    dropNa xs = (xs.filterMap finPart).map RVal.fin := by
  induction xs with
  | nil => rfl
  | cons x xs ih =>
      have hx := h x (List.mem_cons_self x xs)
      have ht := ih (fun y hy => h y (List.mem_cons_of_mem x hy))
      cases x with
      | nan => simpa [dropNa, finPart, RVal.isNa, List.filterMap_cons] using ht
      | pinf => exact absurd rfl hx.1
      | ninf => exact absurd rfl hx.2
      | fin q => simpa [dropNa, finPart, RVal.isNa, List.filterMap_cons] using ht

/-- Helper (refinement): the pandas `mean(axis=1, skipna=True)` of the code
equals the spec's skip-missing mean on infinity-free values. -/
theorem dfMean_eq_skipMissingMean (xs : List RVal) (h : ∀ x ∈ xs, finOrNan x) :
    dfMean xs = skipMissingMean xs := by
  unfold dfMean skipMissingMean
  rw [dropNa_of_finOrNan xs h]
  cases hq : xs.filterMap finPart with
  | nil => simp
  | cons q qs =>
      rw [if_neg (by simp)]
      rw [sumR_fins]
      simp only [List.length_map, List.length_cons, RVal.div]
      rw [if_neg (by exact_mod_cast Nat.succ_ne_zero qs.length)]

/-- Helper: a skipna mean of infinity-free values is infinity-free. -/
theorem dfMean_finOrNan (xs : List RVal) (h : ∀ x ∈ xs, finOrNan x) :
    finOrNan (dfMean xs) := by
  rw [dfMean_eq_skipMissingMean xs h]
  unfold skipMissingMean
  cases xs.filterMap finPart with
  | nil => exact ⟨fun hc => RVal.noConfusion hc, fun hc => RVal.noConfusion hc⟩
  | cons q qs => exact ⟨fun hc => RVal.noConfusion hc, fun hc => RVal.noConfusion hc⟩

/-- Helper: looked-up normalized values inherit infinity-freeness. -/
theorem normVal_finOrNan (nv : List (String × List (String × RVal)))
    (hfin : ∀ r ∈ nv, ∀ q ∈ r.2, finOrNan q.2) (iid iso : String) :
    finOrNan (normVal nv iid iso) := by
  unfold normVal
  cases hr : nv.find? (fun p => p.1 = iid) with
  | none => exact ⟨fun hc => RVal.noConfusion hc, fun hc => RVal.noConfusion hc⟩
  | some r =>
      dsimp only
      cases hq : r.2.find? (fun q => q.1 = iso) with
      | none =>
          simp only [hq, Option.map_none', Option.getD_none]
          exact ⟨fun hc => RVal.noConfusion hc, fun hc => RVal.noConfusion hc⟩
      | some q =>
          simp only [hq, Option.map_some', Option.getD_some]
          exact hfin r (List.mem_of_find?_eq_some hr) q (List.mem_of_find?_eq_some hq)

/-- C2: for every country, each group, pillar and total score is the
skip-missing mean of its members — indicator norm columns for groups and
pillars, pillar scores for the total; a member set with no non-missing
members yields a missing result (never zero, and the mean itself is a total
function); and a pillar over values 20, missing, 80 equals 50.  The
hypothesis (no infinities among the normalized values) always holds for
clipped normalizer output. -/
theorem aggregation_skip_missing_mean (nv : List (String × List (String × RVal)))
    (cfg : Config) (iso : String)
    (hfin : ∀ r ∈ nv, ∀ q ∈ r.2, finOrNan q.2) :
    (∀ gid, groupScore nv cfg gid iso
        = skipMissingMean ((groupMembers cfg gid).map (fun iid => normVal nv iid iso)))
    ∧ (∀ pid, pillarScore nv cfg pid iso
        = skipMissingMean ((pillarMembers cfg pid).map (fun iid => normVal nv iid iso)))
    ∧ totalScore nv cfg iso
        = skipMissingMean (cfg.pillars.map (fun p => pillarScore nv cfg p iso))
    ∧ (∀ gid, (∀ iid ∈ groupMembers cfg gid, normVal nv iid iso = RVal.nan) →
        groupScore nv cfg gid iso = RVal.nan)
    ∧ skipMissingMean [RVal.fin 20, RVal.nan, RVal.fin 80] = RVal.fin 50 := by
  have hmem : ∀ (ids : List String), ∀ x ∈ ids.map (fun iid => normVal nv iid iso),
      finOrNan x := by
    intro ids x hx
    obtain ⟨iid, _, rfl⟩ := List.mem_map.mp hx
    exact normVal_finOrNan nv hfin iid iso
  refine ⟨?_, ?_, ?_, ?_, ?_⟩
  · intro gid
    exact dfMean_eq_skipMissingMean _ (hmem (groupMembers cfg gid))
  · intro pid
    exact dfMean_eq_skipMissingMean _ (hmem (pillarMembers cfg pid))
  · refine dfMean_eq_skipMissingMean _ ?_
    intro x hx
    obtain ⟨p, _, rfl⟩ := List.mem_map.mp hx
    exact dfMean_finOrNan _ (hmem (pillarMembers cfg p))
  · intro gid hall
    unfold groupScore dfMean
    rw [dropNa_of_finOrNan _ (hmem (groupMembers cfg gid))]
    have : ((groupMembers cfg gid).map (fun iid => normVal nv iid iso)).filterMap finPart
        = [] := by
      rw [List.filterMap_eq_nil_iff]
      intro a ha
      obtain ⟨iid, hiid, rfl⟩ := List.mem_map.mp ha
      rw [hall iid hiid]
      rfl
    rw [this]
    simp
  · have : List.filterMap finPart [RVal.fin 20, RVal.nan, RVal.fin 80] = [20, 80] := by
      simp [List.filterMap_cons, finPart]
    unfold skipMissingMean
    rw [this]
    norm_num

/-- Witness for `aggregation_skip_missing_mean`, exercising the concrete
20 / missing / 80 → 50 aggregate. -/
theorem aggregation_skip_missing_mean_witness :
    skipMissingMean [RVal.fin 20, RVal.nan, RVal.fin 80] = RVal.fin 50 :=
  (aggregation_skip_missing_mean [("i1", [("AUT", RVal.fin 20)])]
    ⟨[{ id := "i1", name := "n", pillar := "p", group := "g",
        source := { type := "vendor_csv" } }],
     ⟨3, {}, ["region", "income", "global"]⟩, ["p"]⟩ "AUT" (by simp [finOrNan])).2.2.2.2
